import Mathlib

/-!
Shallow embedding of the pitch-tuner core (renatodap/pitch-tuner).

Sources embedded:
- src/lib/notes (NOTE_NAMES, NoteInfo, frequencyToNote, noteToFrequency)
- src/lib/pitch.ts (autoCorrelate, detectPitch)
- src/hooks/usePitchDetection.ts (updatePitch tick step, setReferenceA4)

Conventions:
- JS numbers that stay in exact rational arithmetic (the autocorrelation
  pipeline) are modelled as rationals; the note mapper, which uses
  Math.log2 and Math.pow, is modelled over the reals.
- JS NaN / Infinity, which matter only for the guard in frequencyToNote
  and for Math.min / Math.max in setReferenceA4, are modelled by the
  JSNum wrapper below.
- Math.round(x) in JS is floor(x + 1/2), which is exactly Mathlib round.
- The percent operator of JS on integer-valued floats is truncated
  remainder, Int.tmod; Math.floor of a real quotient is Int.floor.
-/

/-- Model of a JS number for the places where non-finite values are
observable: a finite real, NaN, or a signed infinity. -/
inductive JSNum where
  | num (x : ℝ)
  | nan
  | inf
  | negInf

/-- Mirrors JS Math.min on two arguments: NaN propagates, otherwise the
usual order with infinities. -/
noncomputable def jsMin (a b : JSNum) : JSNum :=
  match a, b with
  | .nan, _ => .nan
  | _, .nan => .nan
  | .negInf, _ => .negInf
  | _, .negInf => .negInf
  | .inf, y => y
  | x, .inf => x
  | .num x, .num y => .num (min x y)

/-- Mirrors JS Math.max on two arguments: NaN propagates, otherwise the
usual order with infinities. -/
noncomputable def jsMax (a b : JSNum) : JSNum :=
  match a, b with
  | .nan, _ => .nan
  | _, .nan => .nan
  | .inf, _ => .inf
  | _, .inf => .inf
  | .negInf, y => y
  | x, .negInf => x
  | .num x, .num y => .num (max x y)

/-! Embedding of src/lib/notes: pure note calculations. -/

/-- Mirrors NOTE_NAMES, the fixed 12-entry chromatic name table starting
at C; the sharps are written with the escape \x23 for the number-sign
character, so each entry is the two-character name such as C#. -/
def NOTE_NAMES : List String :=
  ["C", "C\x23", "D", "D\x23", "E", "F", "F\x23", "G", "G\x23", "A", "A\x23", "B"]

/-- Mirrors the NoteInfo interface of src/lib/notes. -/
structure NoteInfo where
  note : String
  octave : ℤ
  frequency : ℝ
  cents : ℤ

/-- Mirrors the constant A4_MIDI = 69. -/
def A4_MIDI : ℤ := 69

/-- Mirrors the constant SEMITONES_PER_OCTAVE = 12. -/
def SEMITONES_PER_OCTAVE : ℤ := 12

/-- Mirrors the constant CENTS_PER_SEMITONE = 100. -/
def CENTS_PER_SEMITONE : ℤ := 100

/-- Mirrors the local constant MIN_FREQUENCY = 20 in frequencyToNote. -/
def MIN_FREQUENCY : ℝ := 20

/-- Mirrors the local constant MAX_FREQUENCY = 5000 in frequencyToNote. -/
def MAX_FREQUENCY : ℝ := 5000

/-- Mirrors JS Array.prototype.indexOf on a list of strings: the index of
the first occurrence, or -1 when absent. -/
def jsIndexOf (l : List String) (s : String) : ℤ :=
  match l.findIdx? (fun t => t == s) with
  | some i => (i : ℤ)
  | none => -1

open Classical in
/-- Mirrors frequencyToNote of src/lib/notes. The JS guard is
`frequency < MIN_FREQUENCY || frequency > MAX_FREQUENCY || !isFinite(frequency)`:
for NaN the isFinite disjunct is true (the comparisons are false), for
+Infinity the MAX comparison (and the isFinite disjunct) is true, and for
-Infinity the MIN comparison (and the isFinite disjunct) is true, so every
non-finite input takes the early null return, which the match arms below
express; for a finite input only the two range comparisons remain. -/
noncomputable def frequencyToNote (frequency : JSNum) (referenceA4 : ℝ) : Option NoteInfo :=
  match frequency with
  | .nan => none
  | .inf => none
  | .negInf => none
  | .num f =>
    if f < MIN_FREQUENCY ∨ f > MAX_FREQUENCY then none
    else
      let semitonesFromA4 : ℝ := (SEMITONES_PER_OCTAVE : ℝ) * Real.logb 2 (f / referenceA4)
      let midiNote : ℤ := round ((A4_MIDI : ℝ) + semitonesFromA4)
      let nearestNoteFrequency : ℝ :=
        referenceA4 * (2 : ℝ) ^ (((midiNote : ℝ) - (A4_MIDI : ℝ)) / (SEMITONES_PER_OCTAVE : ℝ))
      let cents : ℤ :=
        round ((CENTS_PER_SEMITONE : ℝ) * (SEMITONES_PER_OCTAVE : ℝ) *
          Real.logb 2 (f / nearestNoteFrequency))
      let noteIndex : ℤ :=
        (midiNote.tmod SEMITONES_PER_OCTAVE + SEMITONES_PER_OCTAVE).tmod SEMITONES_PER_OCTAVE
      let octave : ℤ := ⌊(midiNote : ℝ) / (SEMITONES_PER_OCTAVE : ℝ)⌋ - 1
      some { note := NOTE_NAMES.getD noteIndex.toNat ""
             octave := octave
             frequency := nearestNoteFrequency
             cents := cents }

/-- Mirrors noteToFrequency of src/lib/notes. -/
noncomputable def noteToFrequency (note : String) (octave : ℤ) (referenceA4 : ℝ) : ℝ :=
  let noteIndex := jsIndexOf NOTE_NAMES note
  let midiNote := (octave + 1) * SEMITONES_PER_OCTAVE + noteIndex
  referenceA4 * (2 : ℝ) ^ (((midiNote : ℝ) - (A4_MIDI : ℝ)) / (SEMITONES_PER_OCTAVE : ℝ))

/-! Embedding of src/lib/pitch.ts: the ACF2+ autocorrelation estimator. -/

/-- Mirrors the constant RMS_THRESHOLD = 0.01. -/
def RMS_THRESHOLD : ℚ := 0.01

/-- Mirrors the constant MIN_PITCH_HZ = 40. -/
def MIN_PITCH_HZ : ℚ := 40

/-- Mirrors the constant MAX_PITCH_HZ = 1200. -/
def MAX_PITCH_HZ : ℚ := 1200

/-- Mirrors the local constant threshold = 0.2 of autoCorrelate's trim. -/
def edgeThreshold : ℚ := 0.2

/-- The accumulated sum of squares of the RMS loop of autoCorrelate. -/
def sumSq (buffer : List ℚ) : ℚ := buffer.foldl (fun acc v => acc + v * v) 0

/-- The mean square of the frame. The source computes
rms = Math.sqrt(sumSq / SIZE); since sqrt is the only irrational step and
is used only in the comparison rms < RMS_THRESHOLD, the comparison is
embedded as meanSq < RMS_THRESHOLD ^ 2 (see rms_gate_iff below for the
equivalence). -/
def meanSq (buffer : List ℚ) : ℚ := sumSq buffer / buffer.length

/-- The first index of the list whose entry has absolute value below the
threshold, if any. -/
def firstBelowIdx (threshold : ℚ) : List ℚ → Option ℕ
  | [] => none
  | v :: rest =>
    if |v| < threshold then some 0
    else (firstBelowIdx threshold rest).map (· + 1)

/-- Mirrors r1 of autoCorrelate: JS runs i = 0, 1, ... while i < SIZE / 2
(i.e. over the first ⌈SIZE/2⌉ samples) and on the first sample with
|buffer[i]| < threshold sets r1 = i and breaks; r1 stays 0 when no such
sample exists. -/
def trimStart (buffer : List ℚ) : ℕ :=
  match firstBelowIdx edgeThreshold (buffer.take ((buffer.length + 1) / 2)) with
  | some i => i
  | none => 0

/-- The first i of the candidate list with |buffer[SIZE - i]| below the
threshold, if any. -/
def firstBackIdx (buffer : List ℚ) : List ℕ → Option ℕ
  | [] => none
  | i :: rest =>
    if |buffer.getD (buffer.length - i) 0| < edgeThreshold then some i
    else firstBackIdx buffer rest

/-- Mirrors r2 of autoCorrelate: JS runs i = 1, 2, ... while i < SIZE / 2
and on the first i with |buffer[SIZE - i]| < threshold sets r2 = SIZE - i
and breaks; r2 stays SIZE - 1 when no such i exists. -/
def trimEnd (buffer : List ℚ) : ℕ :=
  match firstBackIdx buffer (List.range' 1 ((buffer.length + 1) / 2 - 1)) with
  | some i => buffer.length - i
  | none => buffer.length - 1

/-- Mirrors buffer.slice(r1, r2) of autoCorrelate. -/
def trimmedBuffer (buffer : List ℚ) : List ℚ :=
  (buffer.take (trimEnd buffer)).drop (trimStart buffer)

/-- Mirrors correlation[i] of autoCorrelate: the sum over j of
trimmedBuffer[j] * trimmedBuffer[j + i] for j from 0 to trimmedSize-i-1. -/
def corrAt (tb : List ℚ) (i : ℕ) : ℚ :=
  ∑ j ∈ Finset.range (tb.length - i), tb.getD j 0 * tb.getD (j + i) 0

/-- Fuel-indexed version of the first-dip while loop of autoCorrelate:
while d < trimmedSize - 1 and correlation[d] > correlation[d+1], increment
d. The loop increments d at most trimmedSize - 1 times, so fuel
trimmedSize makes the fuelled version exact. -/
def dipAux (tb : List ℚ) : ℕ → ℕ → ℕ
  | 0, d => d
  | fuel + 1, d =>
    if d < tb.length - 1 ∧ corrAt tb d > corrAt tb (d + 1) then dipAux tb fuel (d + 1)
    else d

/-- The value of d after the first-dip while loop of autoCorrelate. -/
def findDip (tb : List ℚ) : ℕ := dipAux tb tb.length 0

/-- Mirrors the peak search of autoCorrelate: starting from (maxVal, maxPos)
= (-1, -1), scan i from d to trimmedSize - 1 and record the position of the
strictly largest correlation value. maxPos is an integer since it can keep
its initial value -1. -/
def peakScan (tb : List ℚ) (d : ℕ) : ℚ × ℤ :=
  (List.range' d (tb.length - d)).foldl
    (fun p i => if corrAt tb i > p.1 then (corrAt tb i, (i : ℤ)) else p) (-1, -1)

/-- Mirrors the parabolic-interpolation block of autoCorrelate: with
x1, x2, x3 the correlations at maxPos - 1, maxPos, maxPos + 1,
a = (x1 + x3 - 2 x2) / 2 and b = (x3 - x1) / 2, the refined lag T0 is
maxPos - b / (2 a) when a is nonzero and maxPos unrefined otherwise. -/
def interpLag (tb : List ℚ) (mp : ℤ) : ℚ :=
  let x1 := corrAt tb (mp - 1).toNat
  let x2 := corrAt tb mp.toNat
  let x3 := corrAt tb (mp + 1).toNat
  let a := (x1 + x3 - 2 * x2) / 2
  let b := (x3 - x1) / 2
  if a ≠ 0 then (mp : ℚ) - b / (2 * a) else (mp : ℚ)

/-- Mirrors autoCorrelate of src/lib/pitch.ts over exact rationals. The
branches are, in source order: the RMS gate (the 0 < SIZE conjunct models
that for an empty buffer the JS rms is NaN, whose comparison with the
threshold is false, so the gate does not fire); the trimmedSize < 2 check;
the maxPos < 1 || maxPos >= trimmedSize - 1 check; the T0 <= 0 check; and
the final return sampleRate / T0. -/
def autoCorrelate (buffer : List ℚ) (sampleRate : ℚ) : ℚ :=
  if 0 < buffer.length ∧ meanSq buffer < RMS_THRESHOLD ^ 2 then -1
  else if (trimmedBuffer buffer).length < 2 then -1
  else if (peakScan (trimmedBuffer buffer) (findDip (trimmedBuffer buffer))).2 < 1 ∨
      (peakScan (trimmedBuffer buffer) (findDip (trimmedBuffer buffer))).2 ≥
        ((trimmedBuffer buffer).length : ℤ) - 1 then -1
  else if interpLag (trimmedBuffer buffer)
      (peakScan (trimmedBuffer buffer) (findDip (trimmedBuffer buffer))).2 ≤ 0 then -1
  else sampleRate / interpLag (trimmedBuffer buffer)
      (peakScan (trimmedBuffer buffer) (findDip (trimmedBuffer buffer))).2

/-- Mirrors the PitchResult interface of src/lib/pitch.ts. -/
structure PitchResult where
  frequency : ℝ
  noteInfo : NoteInfo

/-- Mirrors detectPitch of src/lib/pitch.ts. -/
noncomputable def detectPitch (audioData : List ℚ) (sampleRate : ℚ) (referenceA4 : ℝ) :
    Option PitchResult :=
  if autoCorrelate audioData sampleRate < MIN_PITCH_HZ ∨
      autoCorrelate audioData sampleRate > MAX_PITCH_HZ then none
  else
    match frequencyToNote (.num ((autoCorrelate audioData sampleRate : ℚ) : ℝ)) referenceA4 with
    | none => none
    | some noteInfo =>
      some { frequency := ((autoCorrelate audioData sampleRate : ℚ) : ℝ), noteInfo := noteInfo }

/-- A concrete frame on which the trim step's behavior is observable: two
loud samples, then a quiet one, then a loud body, a quiet sample, and a
loud tail. -/
def loudEdgeFrame : List ℚ := [0.5, 0.5, 0, 0.5, 0.5, 0.5, 0.5, 0, 0.5, 0.5]

/-! Embedding of the tick-loop state machine of
src/hooks/usePitchDetection.ts (the version with the hold counter,
src/unnamed/part_001). -/

/-- Mirrors the TunerState union type of usePitchDetection. -/
inductive TunerState where
  | idle
  | listening
  | active
  | error
  deriving DecidableEq, Repr

/-- The externally observable part of one tick: the state and pitch the
hook publishes through setState and setPitch. -/
structure TunerReading where
  state : TunerState
  pitch : Option PitchResult

/-- The mutable hold state of the tick loop: lastPitchRef and
holdCounterRef. The counter is only ever written 0, PITCH_HOLD_FRAMES, or
a decrement of a positive value, so it is a natural number. -/
structure HoldState where
  lastPitch : Option PitchResult
  holdCounter : ℕ

/-- Mirrors the constant PITCH_HOLD_FRAMES = 10. -/
def PITCH_HOLD_FRAMES : ℕ := 10

/-- Mirrors one run of the updatePitch tick body of usePitchDetection
(src/unnamed/part_001 lines 97-114), as a pure step: given the hold state
and the detectPitch result of this tick, it returns the new hold state and
the published reading. -/
def updatePitch (s : HoldState) (result : Option PitchResult) : HoldState × TunerReading :=
  match result with
  | some r =>
    ({ lastPitch := some r, holdCounter := PITCH_HOLD_FRAMES },
     { state := .active, pitch := some r })
  | none =>
    if s.holdCounter > 0 then
      ({ lastPitch := s.lastPitch, holdCounter := s.holdCounter - 1 },
       { state := .active, pitch := s.lastPitch })
    else
      ({ lastPitch := none, holdCounter := s.holdCounter },
       { state := .listening, pitch := none })

/-- The hold state reached from s by one tick with no detection. -/
def tickNone (s : HoldState) : HoldState := (updatePitch s none).1

/-- The reading emitted by one tick with no detection from state s. -/
def readNone (s : HoldState) : TunerReading := (updatePitch s none).2

/-- Mirrors the constant MIN_REFERENCE_A4 = 432. -/
def MIN_REFERENCE_A4 : ℝ := 432

/-- Mirrors the constant MAX_REFERENCE_A4 = 446. -/
def MAX_REFERENCE_A4 : ℝ := 446

/-- Mirrors the body of setReferenceA4 of usePitchDetection:
Math.max(MIN_REFERENCE_A4, Math.min(MAX_REFERENCE_A4, hz)), the value
stored as the effective reference pitch. -/
noncomputable def setReferenceA4 (hz : JSNum) : JSNum :=
  jsMax (.num MIN_REFERENCE_A4) (jsMin (.num MAX_REFERENCE_A4) hz)

/-- A concrete pitch result (an exactly tuned A4) used as a detection
value in concrete instantiations of the tick-loop properties. -/
noncomputable def heldA4 : PitchResult :=
  { frequency := 440, noteInfo := { note := "A", octave := 4, frequency := 440, cents := 0 } }

/-! Arithmetic helper lemmas used to evaluate the note mapper. -/

lemma tmod_lower_bound (m : ℤ) : -12 < m.tmod 12 := by
  match m with
  | .ofNat n =>
    have h := Int.tmod_nonneg (12 : ℤ) (show (0 : ℤ) ≤ .ofNat n from Int.ofNat_nonneg n)
    omega
  | .negSucc n =>
    show -12 < -(((n + 1) % 12 : ℕ) : ℤ)
    have h : (n + 1) % 12 < 12 := Nat.mod_lt _ (by norm_num)
    omega

lemma tmod_plus_twelve (m : ℤ) : (m.tmod 12 + 12).tmod 12 = m % 12 := by
  have hub : m.tmod 12 < 12 := Int.tmod_lt_of_pos m (by norm_num)
  have hlb : -12 < m.tmod 12 := tmod_lower_bound m
  have hcong : m.tmod 12 % 12 = m % 12 := by
    rw [Int.tmod_def]
    generalize m.tdiv 12 = t
    omega
  rw [Int.tmod_eq_emod (by omega) (by norm_num)]
  omega

lemma floor_intCast_div_twelve (m : ℤ) : ⌊(m : ℝ) / 12⌋ = m / 12 := by
  rw [Int.floor_eq_iff]
  constructor
  · have h : ((m / 12 : ℤ) : ℝ) * 12 ≤ (m : ℝ) := by
      exact_mod_cast (show (m / 12) * 12 ≤ m by omega)
    rw [le_div_iff₀ (by norm_num : (0 : ℝ) < 12)]
    linarith
  · have h : (m : ℝ) < ((m / 12 : ℤ) : ℝ) * 12 + 12 := by
      exact_mod_cast (show m < (m / 12) * 12 + 12 by omega)
    rw [div_lt_iff₀ (by norm_num : (0 : ℝ) < 12)]
    linarith

/-- Characterization of frequencyToNote on an in-range finite frequency and
a positive reference pitch, with every field expressed through
m = round(69 + 12 * log2(f / ref)). -/
lemma frequencyToNote_eval (f ref : ℝ) (h20 : 20 ≤ f) (h5000 : f ≤ 5000) (href : 0 < ref) :
    frequencyToNote (.num f) ref =
      some { note := NOTE_NAMES.getD ((round ((69 : ℝ) + 12 * Real.logb 2 (f / ref)) % 12).toNat) ""
             octave := round ((69 : ℝ) + 12 * Real.logb 2 (f / ref)) / 12 - 1
             frequency := ref * (2 : ℝ) ^
               (((round ((69 : ℝ) + 12 * Real.logb 2 (f / ref)) : ℝ) - 69) / 12)
             cents := round ((100 : ℝ) *
               (((69 : ℝ) + 12 * Real.logb 2 (f / ref)) -
                 (round ((69 : ℝ) + 12 * Real.logb 2 (f / ref)) : ℝ))) } := by
  have hf0 : 0 < f := by linarith
  have hguard : ¬(f < MIN_FREQUENCY ∨ f > MAX_FREQUENCY) := by
    rw [MIN_FREQUENCY, MAX_FREQUENCY]
    push_neg
    exact ⟨h20, h5000⟩
  rw [frequencyToNote, if_neg hguard]
  simp only [A4_MIDI, SEMITONES_PER_OCTAVE, CENTS_PER_SEMITONE]
  push_cast
  set m : ℤ := round ((69 : ℝ) + 12 * Real.logb 2 (f / ref)) with hm
  have hfreqpos : (0 : ℝ) < (2 : ℝ) ^ (((m : ℝ) - 69) / 12) :=
    Real.rpow_pos_of_pos (by norm_num) _
  have hcents : (100 : ℝ) * 12 *
      Real.logb 2 (f / (ref * (2 : ℝ) ^ (((m : ℝ) - 69) / 12))) =
      (100 : ℝ) * (((69 : ℝ) + 12 * Real.logb 2 (f / ref)) - (m : ℝ)) := by
    rw [Real.logb_div (ne_of_gt hf0) (by positivity),
      Real.logb_mul (ne_of_gt href) (ne_of_gt hfreqpos),
      Real.logb_rpow (by norm_num : (0 : ℝ) < 2) (by norm_num : (2 : ℝ) ≠ 1),
      Real.logb_div (ne_of_gt hf0) (ne_of_gt href)]
    ring
  rw [tmod_plus_twelve, floor_intCast_div_twelve, hcents]

lemma round_within_fifty (y : ℝ) (h : |y| ≤ 1 / 2) :
    -50 ≤ round ((100 : ℝ) * y) ∧ round ((100 : ℝ) * y) ≤ 50 := by
  rw [abs_le] at h
  constructor
  · rw [round_eq, Int.le_floor]
    push_cast
    linarith
  · rw [round_eq]
    have h1 : ⌊(100 : ℝ) * y + 1 / 2⌋ ≤ ⌊(101 / 2 : ℝ)⌋ := Int.floor_mono (by linarith)
    have h2 : ⌊(101 / 2 : ℝ)⌋ = 50 := by norm_num
    omega

lemma noteNames_index_back : ∀ s ∈ NOTE_NAMES,
    0 ≤ jsIndexOf NOTE_NAMES s ∧ jsIndexOf NOTE_NAMES s < 12 ∧
      NOTE_NAMES.getD (jsIndexOf NOTE_NAMES s).toNat "" = s := by decide

lemma noteNames_back_index : ∀ j ∈ Finset.range 12,
    jsIndexOf NOTE_NAMES (NOTE_NAMES.getD j "") = (j : ℤ) := by decide

lemma rms_gate_iff (q : ℚ) : Real.sqrt (q : ℝ) < 0.01 ↔ q < (0.01 : ℚ) ^ 2 := by
  rw [Real.sqrt_lt' (by norm_num : (0 : ℝ) < 0.01),
    show (0.01 : ℝ) = ((0.01 : ℚ) : ℝ) by norm_num]
  exact_mod_cast Iff.rfl

lemma tickNone_pos (s : HoldState) (h : 0 < s.holdCounter) :
    tickNone s = { lastPitch := s.lastPitch, holdCounter := s.holdCounter - 1 } := by
  rw [tickNone, updatePitch, if_pos h]

lemma tickNone_zero (s : HoldState) (h : s.holdCounter = 0) :
    tickNone s = { lastPitch := none, holdCounter := s.holdCounter } := by
  rw [tickNone, updatePitch, if_neg (by omega)]

lemma readNone_pos (s : HoldState) (h : 0 < s.holdCounter) :
    readNone s = { state := .active, pitch := s.lastPitch } := by
  rw [readNone, updatePitch, if_pos h]

lemma readNone_zero (s : HoldState) (h : s.holdCounter = 0) :
    readNone s = { state := .listening, pitch := none } := by
  rw [readNone, updatePitch, if_neg (by omega)]

lemma tickNone_iterate (r : PitchResult) (j : ℕ) (hj : j ≤ PITCH_HOLD_FRAMES) :
    tickNone^[j] { lastPitch := some r, holdCounter := PITCH_HOLD_FRAMES } =
      { lastPitch := some r, holdCounter := PITCH_HOLD_FRAMES - j } := by
  induction j with
  | zero => simp
  | succ n ih =>
    rw [Function.iterate_succ_apply', ih (by omega),
      tickNone_pos _ (by rw [PITCH_HOLD_FRAMES] at hj ⊢; simp; omega)]
    simp [Nat.sub_sub]

/-! Theorems for the claims. -/

/-- C6: for every reference pitch, frequencyToNote returns none whenever
the input frequency is nonpositive, non-finite (NaN or an infinity),
below 20 Hz, or above 5000 Hz. -/
theorem frequencyToNote_range_rejection (f : JSNum) (ref : ℝ)
    (h : f = .nan ∨ f = .inf ∨ f = .negInf ∨
      ∃ x, f = .num x ∧ (x ≤ 0 ∨ x < 20 ∨ x > 5000)) :
    frequencyToNote f ref = none := by
  rcases h with rfl | rfl | rfl | ⟨x, rfl, hx⟩
  · rfl
  · rfl
  · rfl
  · have hcond : x < MIN_FREQUENCY ∨ x > MAX_FREQUENCY := by
      rw [MIN_FREQUENCY, MAX_FREQUENCY]
      rcases hx with h | h | h
      · left; linarith
      · left; exact h
      · right; exact h
    rw [frequencyToNote, if_pos hcond]

/-- Witness for C6 at the concrete out-of-range frequency 10 Hz. -/
theorem frequencyToNote_range_rejection_witness :
    frequencyToNote (.num 10) 440 = none :=
  frequencyToNote_range_rejection (.num 10) 440
    (Or.inr (Or.inr (Or.inr ⟨10, rfl, Or.inr (Or.inl (by norm_num))⟩)))

/-- C7: for every accepted frequency in [20, 5000] Hz and every (positive)
reference pitch, the cents deviation of the returned NoteInfo lies within
[-50, 50]. -/
theorem frequencyToNote_cents_bounded (f ref : ℝ) (h20 : 20 ≤ f) (h5000 : f ≤ 5000)
    (href : 0 < ref) :
    ∃ ni, frequencyToNote (.num f) ref = some ni ∧ -50 ≤ ni.cents ∧ ni.cents ≤ 50 := by
  obtain ⟨hl, hu⟩ :=
    round_within_fifty
      (((69 : ℝ) + 12 * Real.logb 2 (f / ref)) -
        (round ((69 : ℝ) + 12 * Real.logb 2 (f / ref)) : ℝ))
      (abs_sub_round ((69 : ℝ) + 12 * Real.logb 2 (f / ref)))
  exact ⟨_, frequencyToNote_eval f ref h20 h5000 href, hl, hu⟩

/-- Witness for C7 at 440 Hz with reference 440. -/
theorem frequencyToNote_cents_bounded_witness :
    ∃ ni, frequencyToNote (.num 440) 440 = some ni ∧ -50 ≤ ni.cents ∧ ni.cents ≤ 50 :=
  frequencyToNote_cents_bounded 440 440 (by norm_num) (by norm_num) (by norm_num)

/-- C9: for every accepted frequency and positive reference pitch, the
frequency field of the returned NoteInfo is exactly the equal-tempered
frequency of the returned (note, octave) pair, that is,
noteToFrequency applied to the returned note and octave recovers it. -/
theorem frequencyToNote_frequency_quantized (f ref : ℝ) (h20 : 20 ≤ f) (h5000 : f ≤ 5000)
    (href : 0 < ref) :
    ∃ ni, frequencyToNote (.num f) ref = some ni ∧
      noteToFrequency ni.note ni.octave ref = ni.frequency := by
  refine ⟨_, frequencyToNote_eval f ref h20 h5000 href, ?_⟩
  dsimp only
  set m : ℤ := round ((69 : ℝ) + 12 * Real.logb 2 (f / ref)) with hm
  have hmod0 : 0 ≤ m % 12 := Int.emod_nonneg m (by norm_num)
  have hmod12 : m % 12 < 12 := Int.emod_lt_of_pos m (by norm_num)
  have hidx : jsIndexOf NOTE_NAMES (NOTE_NAMES.getD (m % 12).toNat "") = m % 12 := by
    have h12 := noteNames_back_index (m % 12).toNat (Finset.mem_range.mpr (by omega))
    rw [h12]
    omega
  rw [noteToFrequency]
  simp only [SEMITONES_PER_OCTAVE, A4_MIDI, hidx]
  have hmidi : (m / 12 - 1 + 1) * 12 + m % 12 = m := by omega
  rw [hmidi]
  norm_num

/-- Witness for C9 at 440 Hz with reference 440. -/
theorem frequencyToNote_frequency_quantized_witness :
    ∃ ni, frequencyToNote (.num 440) 440 = some ni ∧
      noteToFrequency ni.note ni.octave 440 = ni.frequency :=
  frequencyToNote_frequency_quantized 440 440 (by norm_num) (by norm_num) (by norm_num)

/-- C4: round trip of the note mapper: for every note name of the 12 pitch
classes, every octave whose note frequency lies in the accepted range
[20, 5000] Hz, and every reference pitch in [432, 446], mapping
noteToFrequency back through frequencyToNote returns the same note name,
the same octave and a cents deviation of exactly 0. -/
theorem noteToFrequency_roundTrip (note : String) (octave : ℤ) (ref : ℝ)
    (hmem : note ∈ NOTE_NAMES) (h432 : 432 ≤ ref) (h446 : ref ≤ 446)
    (hlo : 20 ≤ noteToFrequency note octave ref)
    (hhi : noteToFrequency note octave ref ≤ 5000) :
    ∃ ni, frequencyToNote (.num (noteToFrequency note octave ref)) ref = some ni ∧
      ni.note = note ∧ ni.octave = octave ∧ ni.cents = 0 := by
  have href : 0 < ref := by linarith
  obtain ⟨hge, hlt, hback⟩ := noteNames_index_back note hmem
  set i := jsIndexOf NOTE_NAMES note with hi
  have hf : noteToFrequency note octave ref =
      ref * (2 : ℝ) ^ (((((octave + 1) * 12 + i : ℤ) : ℝ) - 69) / 12) := by
    rw [noteToFrequency]
    simp only [SEMITONES_PER_OCTAVE, A4_MIDI]
    norm_num
  have hlogb : (69 : ℝ) + 12 * Real.logb 2 (noteToFrequency note octave ref / ref) =
      (((octave + 1) * 12 + i : ℤ) : ℝ) := by
    rw [hf, mul_div_cancel_left₀ _ (ne_of_gt href),
      Real.logb_rpow (by norm_num : (0 : ℝ) < 2) (by norm_num : (2 : ℝ) ≠ 1)]
    ring
  have hm : round ((69 : ℝ) + 12 * Real.logb 2 (noteToFrequency note octave ref / ref)) =
      (octave + 1) * 12 + i := by
    rw [hlogb, round_intCast]
  refine ⟨_, frequencyToNote_eval _ ref hlo hhi href, ?_, ?_, ?_⟩
  · dsimp only
    rw [hm]
    have hmod : ((octave + 1) * 12 + i) % 12 = i := by omega
    rw [hmod, hback]
  · dsimp only
    rw [hm]
    omega
  · dsimp only
    rw [hm, hlogb]
    simp

/-- Witness for C4 at note A, octave 4, reference 440 (the 440 Hz case). -/
theorem noteToFrequency_roundTrip_witness :
    ∃ ni, frequencyToNote (.num (noteToFrequency "A" 4 440)) 440 = some ni ∧
      ni.note = "A" ∧ ni.octave = 4 ∧ ni.cents = 0 := by
  have hval : noteToFrequency "A" 4 440 = 440 := by
    have hidx : jsIndexOf NOTE_NAMES "A" = 9 := by decide
    rw [noteToFrequency]
    simp only [SEMITONES_PER_OCTAVE, A4_MIDI, hidx]
    norm_num
  exact noteToFrequency_roundTrip "A" 4 440 (by decide) (by norm_num) (by norm_num)
    (by rw [hval]; norm_num) (by rw [hval]; norm_num)

/-- C5: silence gating: every frame whose root-mean-square amplitude is
below the noise floor 0.01 (in particular an all-zero frame) yields no
pitch result from detectPitch, for every sample rate and reference
pitch. -/
theorem detectPitch_silence (buffer : List ℚ) (sampleRate : ℚ) (ref : ℝ)
    (h : Real.sqrt ((meanSq buffer : ℚ) : ℝ) < 0.01) :
    detectPitch buffer sampleRate ref = none := by
  have hauto : autoCorrelate buffer sampleRate = -1 := by
    rcases Nat.eq_zero_or_pos buffer.length with h0 | hpos
    · have hbuf : buffer = [] := List.length_eq_zero.mp h0
      subst hbuf
      rw [autoCorrelate, if_neg, if_pos]
      · norm_num [trimmedBuffer, trimStart, trimEnd, firstBelowIdx, firstBackIdx]
      · norm_num [meanSq, sumSq]
    · have hq : meanSq buffer < RMS_THRESHOLD ^ 2 := by
        have hlt := (rms_gate_iff (meanSq buffer)).mp h
        rw [RMS_THRESHOLD]
        exact_mod_cast hlt
      rw [autoCorrelate, if_pos ⟨hpos, hq⟩]
  rw [detectPitch, if_pos]
  left
  rw [hauto, MIN_PITCH_HZ]
  norm_num

/-- Witness for C5 at the all-zero four-sample frame. -/
theorem detectPitch_silence_witness :
    detectPitch [0, 0, 0, 0] 48000 440 = none := by
  apply detectPitch_silence
  have hms : meanSq [0, 0, 0, 0] = 0 := by norm_num [meanSq, sumSq]
  rw [hms]
  norm_num

/-- C10: autoCorrelate is total and safe: on every input it either returns
the sentinel -1 or returns sampleRate / T0 where the peak position mp is
interior (1 <= mp <= trimmedSize - 2, so the three correlation indices
mp - 1, mp, mp + 1 used by the parabolic interpolation are all within
bounds), T0 is the guarded interpolated lag (the division by 2a happens
only under the a /= 0 test inside interpLag), and T0 > 0. -/
theorem autoCorrelate_safe (buffer : List ℚ) (sampleRate : ℚ) :
    autoCorrelate buffer sampleRate = -1 ∨
    ∃ mp : ℤ,
      mp = (peakScan (trimmedBuffer buffer) (findDip (trimmedBuffer buffer))).2 ∧
      2 ≤ (trimmedBuffer buffer).length ∧
      1 ≤ mp ∧ mp ≤ ((trimmedBuffer buffer).length : ℤ) - 2 ∧
      (mp + 1).toNat < (trimmedBuffer buffer).length ∧
      0 < interpLag (trimmedBuffer buffer) mp ∧
      autoCorrelate buffer sampleRate = sampleRate / interpLag (trimmedBuffer buffer) mp := by
  rw [autoCorrelate]
  split_ifs with h1 h2 h3 h4
  · exact Or.inl rfl
  · exact Or.inl rfl
  · exact Or.inl rfl
  · exact Or.inl rfl
  · right
    push_neg at h2 h3 h4
    obtain ⟨hmp1, hmpn⟩ := h3
    refine ⟨_, rfl, by omega, hmp1, by omega, by omega, h4, rfl⟩

/-- C2 (code-bug evidence): evaluation of the trim step on loudEdgeFrame.
The computed r1 is 2 and r2 is 7: the two removed leading samples both
have amplitude 0.5, at or above the edge threshold 0.2, while the
retained trimmed buffer begins with the quiet sample 0, whose amplitude
is below the threshold — the trim removes loud leading samples up to the
first quiet one and keeps the quiet sample, the opposite of removing
below-threshold edge samples. -/
theorem trim_keeps_quiet_edge :
    trimStart loudEdgeFrame = 2 ∧ trimEnd loudEdgeFrame = 7 ∧
    loudEdgeFrame.take (trimStart loudEdgeFrame) = [0.5, 0.5] ∧
    (∀ v ∈ loudEdgeFrame.take (trimStart loudEdgeFrame), edgeThreshold ≤ |v|) ∧
    trimmedBuffer loudEdgeFrame = [0, 0.5, 0.5, 0.5, 0.5] ∧
    |(0 : ℚ)| < edgeThreshold := by
  have h1 : trimStart loudEdgeFrame = 2 := by
    norm_num [trimStart, loudEdgeFrame, firstBelowIdx, edgeThreshold, abs_of_nonneg]
  have h2 : trimEnd loudEdgeFrame = 7 := by
    norm_num [trimEnd, loudEdgeFrame, firstBackIdx, edgeThreshold, List.range', abs_of_nonneg]
  refine ⟨h1, h2, ?_, ?_, ?_, ?_⟩
  · rw [h1]
    norm_num [loudEdgeFrame]
  · rw [h1]
    norm_num [loudEdgeFrame, edgeThreshold, abs_of_nonneg]
  · rw [trimmedBuffer, h1, h2]
    norm_num [loudEdgeFrame]
  · norm_num [edgeThreshold]

/-- C1: hold behavior of the tick loop: after a tick with a confident
detection r, every one of the following no-detection ticks numbered
1 through PITCH_HOLD_FRAMES - 1 emits Active with the held note r; the
hold budget is exhausted (the counter reaches 0) after no-detection tick
number PITCH_HOLD_FRAMES, and the first no-detection tick executed in the
exhausted state (tick PITCH_HOLD_FRAMES + 1) emits Listening with no
note. -/
theorem updatePitch_hold_behavior (r : PitchResult) (s : HoldState) :
    (∀ k, 1 ≤ k → k ≤ PITCH_HOLD_FRAMES - 1 →
      readNone (tickNone^[k - 1] (updatePitch s (some r)).1) =
        { state := .active, pitch := some r }) ∧
    (tickNone^[PITCH_HOLD_FRAMES] (updatePitch s (some r)).1).holdCounter = 0 ∧
    readNone (tickNone^[PITCH_HOLD_FRAMES] (updatePitch s (some r)).1) =
      { state := .listening, pitch := none } := by
  have hs1 : (updatePitch s (some r)).1 =
      { lastPitch := some r, holdCounter := PITCH_HOLD_FRAMES } := rfl
  rw [hs1]
  refine ⟨?_, ?_, ?_⟩
  · intro k hk1 hk2
    rw [PITCH_HOLD_FRAMES] at hk2
    rw [tickNone_iterate r (k - 1) (by rw [PITCH_HOLD_FRAMES]; omega),
      readNone_pos _ (by rw [PITCH_HOLD_FRAMES]; simp; omega)]
  · rw [tickNone_iterate r PITCH_HOLD_FRAMES le_rfl]
    simp
  · rw [tickNone_iterate r PITCH_HOLD_FRAMES le_rfl,
      readNone_zero _ (by simp)]

/-- Witness for C1: from an empty hold state and a concrete A4 detection,
no-detection tick 3 still emits Active with the held note, and
no-detection tick 11 emits Listening with no note. -/
theorem updatePitch_hold_behavior_witness :
    readNone (tickNone^[2]
      (updatePitch { lastPitch := none, holdCounter := 0 } (some heldA4)).1) =
      { state := .active, pitch := some heldA4 } ∧
    readNone (tickNone^[10]
      (updatePitch { lastPitch := none, holdCounter := 0 } (some heldA4)).1) =
      { state := .listening, pitch := none } := by
  have h := updatePitch_hold_behavior heldA4 { lastPitch := none, holdCounter := 0 }
  exact ⟨h.1 3 (by norm_num) (by rw [PITCH_HOLD_FRAMES]; norm_num), h.2.2⟩

/-- C8: on every no-detection tick the hold counter does not increase: it
decrements by one when positive and stays zero when zero; on every tick
with a detection it is reset to the hold budget PITCH_HOLD_FRAMES = 10. -/
theorem updatePitch_holdCounter_invariant (s : HoldState) :
    ((updatePitch s none).1.holdCounter ≤ s.holdCounter ∧
      (0 < s.holdCounter → (updatePitch s none).1.holdCounter = s.holdCounter - 1) ∧
      (s.holdCounter = 0 → (updatePitch s none).1.holdCounter = 0)) ∧
    (∀ r, (updatePitch s (some r)).1.holdCounter = PITCH_HOLD_FRAMES) := by
  constructor
  · have ht : (updatePitch s none).1 = tickNone s := rfl
    rw [ht]
    rcases Nat.eq_zero_or_pos s.holdCounter with h0 | hpos
    · rw [tickNone_zero s h0]
      exact ⟨le_rfl, fun h => absurd h (by omega), fun h => h0⟩
    · rw [tickNone_pos s hpos]
      exact ⟨Nat.sub_le _ _, fun h => rfl, fun h => absurd h (by omega)⟩
  · intro r
    rfl

/-- Witness for C8 at a state with counter 5 and a concrete detection. -/
theorem updatePitch_holdCounter_invariant_witness :
    (updatePitch { lastPitch := none, holdCounter := 5 } none).1.holdCounter = 4 ∧
    (updatePitch { lastPitch := none, holdCounter := 5 } (some heldA4)).1.holdCounter =
      PITCH_HOLD_FRAMES := by
  have h := updatePitch_holdCounter_invariant { lastPitch := none, holdCounter := 5 }
  exact ⟨h.1.2.1 (by norm_num), h.2 heldA4⟩

/-- C3 counterexample: setReferenceA4 applied to NaN stores NaN, which is
not a finite value within [432, 446]: Math.min and Math.max propagate
NaN, so the clamp does not hold for NaN input. -/
theorem setReferenceA4_nan_counterexample :
    setReferenceA4 JSNum.nan = JSNum.nan ∧
    ¬∃ r : ℝ, setReferenceA4 JSNum.nan = .num r ∧ 432 ≤ r ∧ r ≤ 446 := by
  have h : setReferenceA4 JSNum.nan = JSNum.nan := by
    rw [setReferenceA4]
    simp [jsMin, jsMax]
  refine ⟨h, ?_⟩
  rintro ⟨r, hr, _, _⟩
  rw [h] at hr
  exact JSNum.noConfusion hr

/-- C3 (amended): for every input other than NaN the stored effective
reference pitch is a finite value within [432, 446]; in particular
setReferenceA4 500 stores 446 and setReferenceA4 1 stores 432. -/
theorem setReferenceA4_clamped (hz : JSNum) (h : hz ≠ JSNum.nan) :
    (∃ r : ℝ, setReferenceA4 hz = .num r ∧ 432 ≤ r ∧ r ≤ 446) ∧
    setReferenceA4 (.num 500) = .num 446 ∧
    setReferenceA4 (.num 1) = .num 432 := by
  refine ⟨?_, ?_, ?_⟩
  · match hz with
    | .nan => exact absurd rfl h
    | .inf =>
      refine ⟨446, ?_, by norm_num, by norm_num⟩
      rw [setReferenceA4, MIN_REFERENCE_A4, MAX_REFERENCE_A4]
      norm_num [jsMin, jsMax, max_def]
    | .negInf =>
      refine ⟨432, ?_, by norm_num, by norm_num⟩
      rw [setReferenceA4, MIN_REFERENCE_A4, MAX_REFERENCE_A4]
      norm_num [jsMin, jsMax]
    | .num x =>
      refine ⟨max 432 (min 446 x), ?_, le_max_left _ _,
        max_le (by norm_num) (le_trans (min_le_left _ _) (by norm_num))⟩
      rw [setReferenceA4, MIN_REFERENCE_A4, MAX_REFERENCE_A4]
      norm_num [jsMin, jsMax]
  · rw [setReferenceA4, MIN_REFERENCE_A4, MAX_REFERENCE_A4]
    norm_num [jsMin, jsMax, min_def, max_def]
  · rw [setReferenceA4, MIN_REFERENCE_A4, MAX_REFERENCE_A4]
    norm_num [jsMin, jsMax, min_def, max_def]

/-- Witness for C3 (amended) at the finite input 500. -/
theorem setReferenceA4_clamped_witness :
    (∃ r : ℝ, setReferenceA4 (.num 500) = .num r ∧ 432 ≤ r ∧ r ≤ 446) ∧
    setReferenceA4 (.num 500) = .num 446 ∧
    setReferenceA4 (.num 1) = .num 432 :=
  setReferenceA4_clamped (.num 500) (by intro h; exact JSNum.noConfusion h)
